import Mathlib

/-!
Shallow embedding of the size-tracking and comparison engine of
rollup-plugin-asset-build-size-compare (src/rollup-plugin-asset-build-size-compare.js).

JavaScript objects keyed by filename are modelled as association lists in key
insertion order; a value of `none` models a JS `null` (or `undefined`) entry value.
File contents are byte lists; the external zlib compressors are parameters
(functions from bytes to bytes, already specialised to the configured level).
The history file on disk is modelled as `Option (List Snapshot)`, where `none`
is a missing or unparseable file. Fallible steps return `Except String`.
-/

namespace ASBC

/-- Decidable equality for fallible results, used to state concrete evaluations. -/
instance {ε α : Type} [DecidableEq ε] [DecidableEq α] : DecidableEq (Except ε α) :=
  fun a b =>
    match a, b with
    | Except.ok x, Except.ok y =>
        if h : x = y then isTrue (by rw [h]) else isFalse (by intro hc; cases hc; exact h rfl)
    | Except.error x, Except.error y =>
        if h : x = y then isTrue (by rw [h]) else isFalse (by intro hc; cases hc; exact h rfl)
    | Except.ok _, Except.error _ => isFalse (by intro hc; cases hc)
    | Except.error _, Except.ok _ => isFalse (by intro hc; cases hc)

/-- Map from filename to compressed byte size, as stored in a JS object: an
association list in key insertion order, `none` modelling a JS `null` value. -/
abbrev SizeMap := List (String × Option Nat)

/-- JS assignment `m[k] = v` on an object: overwrites the value in place when the
key already exists, otherwise appends the key at the end of the insertion order. -/
def objAssign (m : SizeMap) (k : String) (v : Option Nat) : SizeMap :=
  if m.any (fun p => p.1 == k) then
    m.map (fun p => if p.1 == k then (p.1, v) else p)
  else m ++ [(k, v)]

/-- JS lookup `m[name] || 0`: a missing key, a `null` value and a `0` value all
give 0. -/
def lookupOr0 (m : SizeMap) (name : String) : Nat :=
  match m.lookup name with
  | some (some v) => v
  | _ => 0

/-- Embeds `__utils.toMap`: reduces the parallel arrays into an object, assigning
`map[name] = values[i]` for each index; an out-of-range `values[i]` is JS
`undefined`, modelled as `none`. -/
def toMap (names : List String) (values : List (Option Nat)) : SizeMap :=
  names.enum.foldl (fun map p => objAssign map p.2 (values.getD p.1 none)) []

/-- Embeds `__utils.dedupe` as used in `arr.filter(dedupe)`: an element is kept
exactly when its index equals the first index at which it occurs in the array. -/
def dedupe (arr : List String) : List String :=
  (arr.enum.filter (fun p => arr.indexOf p.2 == p.1)).map Prod.snd

/-- A per-file record as built by `save` and persisted inside a snapshot. -/
structure FileDelta where
  filename : String
  previous : Nat
  size : Nat
  diff : Int
  deriving DecidableEq

/-- Embeds `__utils.toFileMap`: folds the file records into an object, assigning
`result[file.filename] = file.size` only when `file.size` is truthy, i.e. only
for records with nonzero size. -/
def toFileMap (files : List FileDelta) : SizeMap :=
  files.foldl
    (fun result file =>
      if file.size != 0 then objAssign result file.filename (some file.size)
      else result)
    []

/-- One persisted measurement event, as written by `save`. -/
structure Snapshot where
  timestamp : Nat
  compressionType : String
  compressionLevel : Nat
  files : List FileDelta
  deriving DecidableEq

/-- The fields of a console item built in the `outputSizes` loop that the engine
consumes later (`save` reads `name`, `sizeBefore` and `size`); the purely
cosmetic text fields are external formatting and are not modelled. -/
structure Item where
  name : String
  sizeBefore : Nat
  size : Nat
  delta : Int
  deriving DecidableEq

/-- One entry of the rollup output bundle: its type tag and generated file name. -/
structure OutputFile where
  type : String
  fileName : String
  deriving DecidableEq

/-- Embeds `filterFiles`: a name passes when it matches the include pattern and
does not match the exclude pattern. The two matchers are the external minimatch
predicates; `isExcluded` is the constant-false predicate when the exclude option
is the empty string, as in the source. -/
def filterFiles (isMatched isExcluded : String → Bool) (files : List String) :
    List String :=
  files.filter (fun file => isMatched file && !(isExcluded file))

/-- Embeds the pattern override in `generateBundle`: when the bundle holds exactly
one output of type chunk, the include pattern becomes that chunk's generated file
name; otherwise the configured pattern is kept. -/
def effectivePattern (configured : String) (bundle : List OutputFile) : String :=
  let chunks := bundle.filter (fun f => f.type == "chunk")
  match chunks with
  | [c] => c.fileName
  | _ => configured

/-- Models the external minimatch facility on a pattern free of glob
metacharacters, such as a generated chunk file name: such a literal pattern
matches exactly the identical name. -/
def litMatch (pattern : String) : String → Bool :=
  fun name => name == pattern

/-- Embeds `getCompressedSize`: the buffer is compressed with the external zlib
gzip or brotli compressor (parameters `gz` and `br`); the brotli branch first
checks availability and throws when the running environment lacks it; any other
compression value (the none mode) leaves the source uncompressed. The result is
the byte length of the resulting buffer. -/
def getCompressedSize (compression : String) (brotliAvailable : Bool)
    (gz br : List UInt8 → List UInt8) (source : List UInt8) : Except String Nat :=
  if compression == "gzip" then
    Except.ok (gz source).length
  else if compression == "brotli" then
    if !brotliAvailable then
      Except.error "Brotli not supported in this Node version."
    else
      Except.ok (br source).length
  else
    Except.ok source.length

/-- Embeds `getSizes`: the external glob returns the candidate names `globbed`;
each name passing `filterFiles` is read (a failed read is caught and yields
`null`, modelled `none`) and measured; the collected results are rejoined with
`toMap` against the unfiltered glob list, exactly as the source does. Only
measurement errors escape; read failures never do. -/
def getSizes (compression : String) (brotliAvailable : Bool)
    (gz br : List UInt8 → List UInt8) (isMatched isExcluded : String → Bool)
    (globbed : List String) (readFile : String → Option (List UInt8)) :
    Except String SizeMap := do
  let sizes ← (filterFiles isMatched isExcluded globbed).mapM (fun file =>
    match readFile file with
    | none => pure none
    | some source => do
        let n ← getCompressedSize compression brotliAvailable gz br source
        pure (some n))
  pure (toMap globbed sizes)

/-- The history file state: `none` models a missing or unparseable file. -/
abbrev Disk := Option (List Snapshot)

/-- The sort applied in `readFromDisk`, comparator `b.timestamp - a.timestamp`:
a stable sort into descending timestamp order (JS `Array.prototype.sort` is
stable, as is this insertion sort). -/
def sortByTimestampDesc (stats : List Snapshot) : List Snapshot :=
  stats.insertionSort (fun a b => b.timestamp ≤ a.timestamp)

/-- Embeds `readFromDisk`: returns the empty history when the writeFile option is
off; otherwise a readable parsed history is re-sorted newest first, and any read
or parse failure is caught and yields the empty history. -/
def readFromDisk (writeFile : Bool) (disk : Disk) : List Snapshot :=
  if !writeFile then []
  else
    match disk with
    | none => []
    | some oldStats => sortByTimestampDesc oldStats

/-- Embeds `load`: when the history read yields data, the first snapshot's files
are converted with `toFileMap`; otherwise the output directory is scanned with
`getSizes`. -/
def load (compression : String) (brotliAvailable : Bool)
    (gz br : List UInt8 → List UInt8) (isMatched isExcluded : String → Bool)
    (globbed : List String) (readFile : String → Option (List UInt8))
    (writeFile : Bool) (disk : Disk) : Except String SizeMap :=
  match readFromDisk writeFile disk with
  | first :: _ => Except.ok (toFileMap first.files)
  | [] => getSizes compression brotliAvailable gz br isMatched isExcluded globbed readFile

/-- Embeds `writeToDisk` as a function on the history file state: when some file
diff is nonzero the history is re-read, the new stats record is prepended and,
when the writeFile option is on, the full sequence is written back; in every
other case the file is untouched. -/
def writeToDisk (writeFile : Bool) (disk : Disk) (stats : Snapshot) : Disk :=
  if stats.files.any (fun file => file.diff != 0) then
    let data := stats :: readFromDisk writeFile disk
    if writeFile then some data else disk
  else disk

/-- Embeds the files mapping inside `save`: each console item becomes a
`FileDelta` whose diff is recomputed as size minus sizeBefore. -/
def saveFiles (files : List Item) : List FileDelta :=
  files.map (fun file =>
    { filename := file.name
      previous := file.sizeBefore
      size := file.size
      diff := (file.size : Int) - (file.sizeBefore : Int) })

/-- Embeds `save`: assembles the new snapshot from the timestamp, the compression
options and the mapped files, then applies `writeToDisk`; the result pairs the
snapshot with the new history file state. -/
def save (compressionType : String) (compressionLevel : Nat) (timestamp : Nat)
    (files : List Item) (writeFile : Bool) (disk : Disk) : Snapshot × Disk :=
  let stats : Snapshot :=
    { timestamp := timestamp
      compressionType := compressionType
      compressionLevel := compressionLevel
      files := saveFiles files }
  (stats, writeToDisk writeFile disk stats)

/-- Embeds the reconciliation loop of `outputSizes`: the filename list is the
keys of the before map followed by the keys of the after map, filtered by
`dedupe`; each name yields an item whose two sizes read the maps with the JS
`|| 0` default and whose delta is their difference. -/
def outputItems (sizesBefore sizesAfter : SizeMap) : List Item :=
  let files := dedupe (sizesBefore.map Prod.fst ++ sizesAfter.map Prod.fst)
  files.map (fun name =>
    { name := name
      sizeBefore := lookupOr0 sizesBefore name
      size := lookupOr0 sizesAfter name
      delta := (lookupOr0 sizesAfter name : Int) - (lookupOr0 sizesBefore name : Int) })

/-- Embeds `outputSizes` followed by `save`: filters the bundle's asset names,
measures each asset's code, builds the after map with `toMap`, reconciles with
the before map and saves. Measurement errors propagate out of this step. -/
def outputSizesRun (compression : String) (brotliAvailable : Bool)
    (gz br : List UInt8 → List UInt8) (compressionLevel : Nat)
    (isMatched isExcluded : String → Bool) (sizesBefore : SizeMap)
    (assetKeys : List String) (code : String → List UInt8)
    (writeFile : Bool) (disk : Disk) (timestamp : Nat) :
    Except String (Snapshot × Disk) := do
  let assetNames := filterFiles isMatched isExcluded assetKeys
  let sizes ← assetNames.mapM (fun name =>
    getCompressedSize compression brotliAvailable gz br (code name))
  let sizesAfter := toMap assetNames (sizes.map some)
  let items := outputItems sizesBefore sizesAfter
  pure (save compression compressionLevel timestamp items writeFile disk)

/-- Embeds `generateBundle` after the pattern override: the baseline `load` is
awaited, so its errors propagate and fail the hook; `outputSizes` is fired with
a catch that only logs, so its errors never fail the hook, and when it errors no
save has happened and the history state is unchanged. The result is the final
history file state. -/
def generateBundle (compression : String) (brotliAvailable : Bool)
    (gz br : List UInt8 → List UInt8) (compressionLevel : Nat)
    (isMatched isExcluded : String → Bool)
    (globbed : List String) (readFile : String → Option (List UInt8))
    (assetKeys : List String) (code : String → List UInt8)
    (writeFile : Bool) (disk : Disk) (timestamp : Nat) :
    Except String Disk := do
  let initialSizes ← load compression brotliAvailable gz br isMatched isExcluded
    globbed readFile writeFile disk
  match outputSizesRun compression brotliAvailable gz br compressionLevel
      isMatched isExcluded initialSizes assetKeys code writeFile disk timestamp with
  | Except.error _ => pure disk
  | Except.ok (_, newDisk) => pure newDisk

/-! Helper lemmas about the embedded utilities. -/

/-- The index of an element absent from the first part of an append is its index
in the second part, shifted by the first part's length. -/
theorem indexOf_append_of_not_mem {xs : List String} {a : String} (h : a ∉ xs)
    (ys : List String) : (xs ++ ys).indexOf a = xs.length + ys.indexOf a := by
  induction xs with
  | nil => simp
  | cons x xs ih =>
      have hne : x ≠ a := by
        intro he
        exact h (he ▸ List.mem_cons_self x xs)
      have h' : a ∉ xs := fun hm => h (List.mem_cons_of_mem x hm)
      simp only [List.cons_append, List.indexOf_cons, ih h']
      have hb : (x == a) = false := beq_eq_false_iff_ne.mpr hne
      simp [hb]
      omega

/-- Filtering on the value component commutes with projecting it. -/
theorem filter_snd_map_snd (l : List (Nat × String)) (q : String → Bool) :
    (l.filter (fun p => q p.2)).map Prod.snd = (l.map Prod.snd).filter q := by
  induction l with
  | nil => rfl
  | cons x xs ih => by_cases h : q x.2 <;> simp [List.filter_cons, h, ih]

/-- Core property of the dedupe filter on concatenated key lists: with each side
free of duplicates, it keeps all of the first list in order and then exactly
those members of the second list not already present in the first. -/
theorem dedupe_append (xs ys : List String) (hx : xs.Nodup) (hy : ys.Nodup) :
    dedupe (xs ++ ys) = xs ++ ys.filter (fun y => decide (y ∉ xs)) := by
  unfold dedupe
  rw [List.enum_append, List.filter_append, List.map_append]
  have h1 : xs.enum.filter (fun p => (xs ++ ys).indexOf p.2 == p.1) = xs.enum := by
    rw [List.filter_eq_self]
    rintro ⟨i, x⟩ hp
    obtain ⟨-, hlt, hx'⟩ := List.mem_enumFrom (show (i, x) ∈ List.enumFrom 0 xs from hp)
    have hlt' : i < xs.length := by omega
    have hmem : x ∈ xs := by
      rw [show x = xs[i - 0] from hx']
      exact List.getElem_mem (by omega)
    rw [List.indexOf_append_of_mem hmem]
    simp only [show x = xs[i - 0] from hx', Nat.sub_zero]
    rw [List.indexOf_getElem hx i hlt']
    simp
  have h2 : (List.enumFrom xs.length ys).filter (fun p => (xs ++ ys).indexOf p.2 == p.1)
      = (List.enumFrom xs.length ys).filter (fun p => decide (p.2 ∉ xs)) := by
    apply List.filter_congr
    rintro ⟨i, y⟩ hp
    obtain ⟨hj, hlt, hy'⟩ := List.mem_enumFrom hp
    by_cases hmem : y ∈ xs
    · rw [List.indexOf_append_of_mem hmem]
      have hlt' : List.indexOf y xs < xs.length := List.indexOf_lt_length.mpr hmem
      have hne : List.indexOf y xs ≠ i := by omega
      simp [hne, hmem]
    · rw [indexOf_append_of_not_mem hmem ys]
      have hiy : List.indexOf y ys = i - xs.length := by
        rw [show y = ys[i - xs.length] from hy']
        exact List.indexOf_getElem hy _ (by omega)
      rw [hiy]
      have : xs.length + (i - xs.length) = i := by omega
      simp [this, hmem]
  rw [h1, h2, List.enum_map_snd,
    filter_snd_map_snd (List.enumFrom xs.length ys) (fun y => decide (y ∉ xs)),
    List.enumFrom_map_snd]

/-- Assigning a key not present in the object appends it at the end. -/
theorem objAssign_of_not_mem {m : SizeMap} {k : String} {v : Option Nat}
    (h : ∀ p ∈ m, p.1 ≠ k) : objAssign m k v = m ++ [(k, v)] := by
  unfold objAssign
  have hany : m.any (fun p => p.1 == k) = false := by
    rw [List.any_eq_false]
    intro p hp
    simpa using h p hp
  simp [hany]

/-- Folding objAssign over enumerated names that are duplicate-free and fresh for
the accumulator appends the pairs in order. -/
theorem foldl_objAssign_fresh (values : List (Option Nat)) :
    ∀ (ps : List (Nat × String)) (acc : SizeMap),
      (ps.map Prod.snd).Nodup →
      (∀ p ∈ ps, ∀ q ∈ acc, q.1 ≠ p.2) →
      ps.foldl (fun map p => objAssign map p.2 (values.getD p.1 none)) acc
        = acc ++ ps.map (fun p => (p.2, values.getD p.1 none)) := by
  intro ps
  induction ps with
  | nil => intro acc _ _; simp
  | cons p ps ih =>
      intro acc hn hd
      have hfresh : ∀ q ∈ acc, q.1 ≠ p.2 := fun q hq => hd p (List.mem_cons_self p ps) q hq
      have hn' : (ps.map Prod.snd).Nodup := (List.nodup_cons.mp (by simpa using hn)).2
      have hhead : p.2 ∉ ps.map Prod.snd := (List.nodup_cons.mp (by simpa using hn)).1
      have hd' : ∀ r ∈ ps, ∀ q ∈ acc ++ [(p.2, values.getD p.1 none)], q.1 ≠ r.2 := by
        intro r hr q hq
        rcases List.mem_append.mp hq with hq1 | hq2
        · exact hd r (List.mem_cons_of_mem p hr) q hq1
        · have hqe : q = (p.2, values.getD p.1 none) := by simpa using hq2
          rw [hqe]
          intro he
          exact hhead (List.mem_map.mpr ⟨r, hr, he.symm⟩)
      simp only [List.foldl_cons]
      rw [objAssign_of_not_mem hfresh, ih (acc ++ [(p.2, values.getD p.1 none)]) hn' hd']
      simp

/-- On duplicate-free names, toMap lists the name and value pairs in order,
pairing a name past the end of the value list with none. -/
theorem toMap_eq_enum (names : List String) (values : List (Option Nat))
    (h : names.Nodup) :
    toMap names values = names.enum.map (fun p => (p.2, values.getD p.1 none)) := by
  unfold toMap
  rw [foldl_objAssign_fresh values names.enum []
    (by rw [List.enum_map_snd]; exact h) (by simp)]
  simp

/-- Looking a name up in the enumerated association list finds its own value. -/
theorem lookup_enumFrom_map (values : List (Option Nat)) :
    ∀ (names : List String) (k i : Nat), names.Nodup → ∀ hi : i < names.length,
      ((List.enumFrom k names).map (fun p => (p.2, values.getD p.1 none))).lookup
          names[i]
        = some (values.getD (k + i) none) := by
  intro names
  induction names with
  | nil => intro k i _ hi; exact absurd hi (by simp)
  | cons n ns ih =>
      intro k i h hi
      cases i with
      | zero => simp [List.enumFrom, List.lookup]
      | succ i =>
          have hi' : i < ns.length := by simpa using hi
          have hin : ns[i] ∈ ns := List.getElem_mem hi'
          have hne : (ns[i] == n) = false := by
            have : n ∉ ns := (List.nodup_cons.mp h).1
            exact beq_eq_false_iff_ne.mpr (fun he => this (he ▸ hin))
          have := ih (k + 1) i (List.nodup_cons.mp h).2 (by simpa using hi)
          simp only [List.enumFrom, List.map_cons, List.getElem_cons_succ,
            List.lookup_cons, hne]
          rw [this]
          congr 2
          omega

/-- Looking a name up in a toMap-built object finds the value at its index. -/
theorem lookup_toMap (names : List String) (values : List (Option Nat))
    (h : names.Nodup) (i : Nat) (hi : i < names.length) :
    (toMap names values).lookup names[i] = some (values.getD i none) := by
  rw [toMap_eq_enum names values h]
  have := lookup_enumFrom_map values names 0 i h hi
  simpa using this

/-- Folding the toFileMap step over records with duplicate-free filenames that
are fresh for the accumulator appends exactly the nonzero-size pairs in order. -/
theorem foldl_toFileMap_fresh :
    ∀ (files : List FileDelta) (acc : SizeMap),
      (files.map FileDelta.filename).Nodup →
      (∀ f ∈ files, ∀ q ∈ acc, q.1 ≠ f.filename) →
      files.foldl
          (fun result file =>
            if file.size != 0 then objAssign result file.filename (some file.size)
            else result)
          acc
        = acc ++ (files.filter (fun f => f.size != 0)).map
            (fun f => (f.filename, some f.size)) := by
  intro files
  induction files with
  | nil => intro acc _ _; simp
  | cons f fs ih =>
      intro acc hn hd
      have hfresh : ∀ q ∈ acc, q.1 ≠ f.filename :=
        fun q hq => hd f (List.mem_cons_self f fs) q hq
      have hn' : (fs.map FileDelta.filename).Nodup := (List.nodup_cons.mp (by simpa using hn)).2
      have hhead : f.filename ∉ fs.map FileDelta.filename :=
        (List.nodup_cons.mp (by simpa using hn)).1
      simp only [List.foldl_cons, List.filter_cons]
      by_cases hsz : f.size != 0
      · have hd' : ∀ r ∈ fs, ∀ q ∈ acc ++ [(f.filename, some f.size)], q.1 ≠ r.filename := by
          intro r hr q hq
          rcases List.mem_append.mp hq with hq1 | hq2
          · exact hd r (List.mem_cons_of_mem f hr) q hq1
          · have hqe : q = (f.filename, some f.size) := by simpa using hq2
            rw [hqe]
            intro he
            exact hhead (List.mem_map.mpr ⟨r, hr, he.symm⟩)
        rw [if_pos hsz, objAssign_of_not_mem hfresh,
          ih (acc ++ [(f.filename, some f.size)]) hn' hd']
        simp [hsz]
      · have hd' : ∀ r ∈ fs, ∀ q ∈ acc, q.1 ≠ r.filename :=
          fun r hr q hq => hd r (List.mem_cons_of_mem f hr) q hq
        rw [if_neg hsz, ih acc hn' hd']
        simp [hsz]

/-- On duplicate-free filenames, toFileMap lists exactly the nonzero-size records
as filename and size pairs, in order. -/
theorem toFileMap_eq (files : List FileDelta)
    (h : (files.map FileDelta.filename).Nodup) :
    toFileMap files
      = (files.filter (fun f => f.size != 0)).map (fun f => (f.filename, some f.size)) := by
  unfold toFileMap
  rw [foldl_toFileMap_fresh files [] h (by simp)]
  simp

/-- Association list lookup finds the value of a present key when keys are
duplicate-free. -/
theorem lookup_eq_some_of_mem :
    ∀ {l : List (String × Option Nat)}, (l.map Prod.fst).Nodup →
      ∀ {k : String} {v : Option Nat}, (k, v) ∈ l → l.lookup k = some v := by
  intro l
  induction l with
  | nil => intro _ k v hm; cases hm
  | cons p l ih =>
      intro h k v hm
      obtain ⟨k₁, v₁⟩ := p
      rcases List.mem_cons.mp hm with he | ht
      · cases he
        simp [List.lookup_cons]
      · have hk : k ∈ l.map Prod.fst := List.mem_map.mpr ⟨(k, v), ht, rfl⟩
        have hne : (k == k₁) = false := by
          have : k₁ ∉ l.map Prod.fst := (List.nodup_cons.mp (by simpa using h)).1
          exact beq_eq_false_iff_ne.mpr (fun he => this (he ▸ hk))
        simp only [List.lookup_cons, hne]
        exact ih (List.nodup_cons.mp (by simpa using h)).2 ht

/-- Association list lookup misses a key absent from the key list. -/
theorem lookup_eq_none_of_not_mem :
    ∀ {l : List (String × Option Nat)} {k : String},
      k ∉ l.map Prod.fst → l.lookup k = none := by
  intro l
  induction l with
  | nil => intro k _; rfl
  | cons p l ih =>
      intro k h
      obtain ⟨k₁, v₁⟩ := p
      have h1 : k ≠ k₁ := by
        intro he
        exact h (by simp [he])
      have h2 : k ∉ l.map Prod.fst := by
        intro hm
        exact h (by simp [hm])
      simp only [List.lookup_cons, beq_eq_false_iff_ne.mpr h1]
      exact ih h2

/-- A mapM over the Except monad whose steps all succeed collects the results. -/
theorem mapM_ok {α β : Type} (g : α → Except String β) (f : α → β) :
    ∀ l : List α, (∀ a ∈ l, g a = Except.ok (f a)) →
      l.mapM g = Except.ok (l.map f) := by
  intro l
  induction l with
  | nil => intro _; rfl
  | cons a l ih =>
      intro h
      rw [List.mapM_cons, h a (List.mem_cons_self a l),
        ih (fun b hb => h b (List.mem_cons_of_mem a hb))]
      rfl

/-! Claim theorems. -/

/-- C1: for any pair of size maps with duplicate-free keys, the reconciliation
loop of outputSizes produces one item per filename in the union of the two key
sets, without duplicates, keeping all of the before keys first in their order
and then the after keys not already seen; and every item reads its previous and
current size from the two maps with default 0 and has delta equal to size minus
previous. -/
theorem C1_reconcile_union (before after : SizeMap)
    (hb : (before.map Prod.fst).Nodup) (ha : (after.map Prod.fst).Nodup) :
    ((outputItems before after).map Item.name
        = before.map Prod.fst
          ++ (after.map Prod.fst).filter (fun n => decide (n ∉ before.map Prod.fst)))
    ∧ ((outputItems before after).map Item.name).Nodup
    ∧ (∀ n : String,
        n ∈ (outputItems before after).map Item.name
          ↔ (n ∈ before.map Prod.fst ∨ n ∈ after.map Prod.fst))
    ∧ (∀ it ∈ outputItems before after,
        it.sizeBefore = lookupOr0 before it.name
        ∧ it.size = lookupOr0 after it.name
        ∧ it.delta = (it.size : Int) - (it.sizeBefore : Int)) := by
  have hnames : (outputItems before after).map Item.name
      = dedupe (before.map Prod.fst ++ after.map Prod.fst) := by
    unfold outputItems
    rw [List.map_map]
    exact List.map_id _
  have hform := dedupe_append (before.map Prod.fst) (after.map Prod.fst) hb ha
  refine ⟨hnames.trans hform, ?_, ?_, ?_⟩
  · rw [hnames, hform, List.nodup_append]
    refine ⟨hb, ha.filter _, ?_⟩
    intro a hax hay
    exact of_decide_eq_true (List.mem_filter.mp hay).2 hax
  · intro n
    rw [hnames, hform]
    simp only [List.mem_append, List.mem_filter, decide_eq_true_eq]
    constructor
    · rintro (h | ⟨h, -⟩)
      · exact Or.inl h
      · exact Or.inr h
    · rintro (h | h)
      · exact Or.inl h
      · by_cases hbmem : n ∈ before.map Prod.fst
        · exact Or.inl hbmem
        · exact Or.inr ⟨h, by simpa using hbmem⟩
  · intro it hit
    unfold outputItems at hit
    obtain ⟨n, -, rfl⟩ := List.mem_map.mp hit
    exact ⟨rfl, rfl, rfl⟩

/-- C1 witness: the reconciliation theorem applied to the concrete maps of the
end-to-end scenario, before holding a.js at 1000 and after holding a.js at 1200
and b.js at 500. -/
theorem C1_witness :
    (outputItems [("a.js", some 1000)]
        [("a.js", some 1200), ("b.js", some 500)]).map Item.name
      = ["a.js", "b.js"] := by
  have h := C1_reconcile_union [("a.js", some 1000)]
    [("a.js", some 1200), ("b.js", some 500)] (by decide) (by decide)
  rw [h.1]
  decide

/-- C2: every file record of the snapshot assembled by the save step has its
diff field equal to its size field minus its previous field. -/
theorem C2_diff_invariant (compressionType : String) (compressionLevel timestamp : Nat)
    (files : List Item) (writeFile : Bool) (disk : Disk) :
    ∀ d ∈ (save compressionType compressionLevel timestamp files writeFile disk).fst.files,
      d.diff = (d.size : Int) - (d.previous : Int) := by
  intro d hd
  have hd' : d ∈ saveFiles files := hd
  unfold saveFiles at hd'
  obtain ⟨it, -, rfl⟩ := List.mem_map.mp hd'
  rfl

/-- C2 witness: the invariant instantiated at a concrete save producing the
record for a.js growing from 3 to 5 bytes. -/
theorem C2_witness :
    FileDelta.mk "a.js" 3 5 2
        ∈ (save "gzip" 6 5 [Item.mk "a.js" 3 5 2] true none).fst.files
    ∧ (FileDelta.mk "a.js" 3 5 2).diff
        = ((FileDelta.mk "a.js" 3 5 2).size : Int)
          - ((FileDelta.mk "a.js" 3 5 2).previous : Int) := by
  refine ⟨by decide, ?_⟩
  exact C2_diff_invariant "gzip" 6 5 [Item.mk "a.js" 3 5 2] true none
    (FileDelta.mk "a.js" 3 5 2) (by decide)

/-- C3: converting file records with duplicate-free filenames into a size map
keeps exactly the nonzero-size records, each filename bound to its own size;
zero-size records produce no entry, and no retained entry carries size 0. -/
theorem C3_zero_size_roundtrip (files : List FileDelta)
    (h : (files.map FileDelta.filename).Nodup) :
    (∀ d ∈ files, d.size ≠ 0 →
        (toFileMap files).lookup d.filename = some (some d.size))
    ∧ (∀ d ∈ files, d.size = 0 → (toFileMap files).lookup d.filename = none)
    ∧ (∀ p ∈ toFileMap files, ∃ d ∈ files, p = (d.filename, some d.size) ∧ d.size ≠ 0) := by
  have heq := toFileMap_eq files h
  have hkeys : (((files.filter (fun f => f.size != 0)).map
      (fun f => (f.filename, some f.size))).map Prod.fst).Nodup := by
    rw [List.map_map]
    have : (Prod.fst ∘ fun f : FileDelta => (f.filename, some f.size))
        = FileDelta.filename := rfl
    rw [this]
    exact ((List.filter_sublist files).map FileDelta.filename).nodup h
  refine ⟨?_, ?_, ?_⟩
  · intro d hd hsz
    rw [heq]
    exact lookup_eq_some_of_mem hkeys
      (List.mem_map.mpr ⟨d, List.mem_filter.mpr ⟨hd, by simpa using hsz⟩, rfl⟩)
  · intro d hd hsz
    rw [heq]
    apply lookup_eq_none_of_not_mem
    intro hk
    rw [List.map_map] at hk
    obtain ⟨d', hd', he⟩ := List.mem_map.mp hk
    have hd'f : d' ∈ files := (List.mem_filter.mp hd').1
    have hd'sz : d'.size ≠ 0 := by simpa using (List.mem_filter.mp hd').2
    have : d' = d := List.inj_on_of_nodup_map h hd'f hd he
    exact hd'sz (this ▸ hsz)
  · intro p hp
    rw [heq] at hp
    obtain ⟨d, hdf, rfl⟩ := List.mem_map.mp hp
    obtain ⟨hdm, hsz⟩ := List.mem_filter.mp hdf
    exact ⟨d, hdm, rfl, by simpa using hsz⟩

/-- C3 witness: the round-trip theorem instantiated at two records, one of
nonzero size kept with its size and one of zero size dropped. -/
theorem C3_witness :
    (toFileMap [FileDelta.mk "a.js" 0 3 3, FileDelta.mk "zero.js" 4 0 (-4)]).lookup "a.js"
        = some (some 3)
    ∧ (toFileMap [FileDelta.mk "a.js" 0 3 3, FileDelta.mk "zero.js" 4 0 (-4)]).lookup "zero.js"
        = none := by
  have h := C3_zero_size_roundtrip
    [FileDelta.mk "a.js" 0 3 3, FileDelta.mk "zero.js" 4 0 (-4)] (by decide)
  exact ⟨h.1 (FileDelta.mk "a.js" 0 3 3) (by decide) (by decide),
    h.2.1 (FileDelta.mk "zero.js" 4 0 (-4)) (by decide) (by decide)⟩

/-- C4: a snapshot whose files all have zero diff leaves the history file state
untouched (no write happens at all); a snapshot with at least one nonzero diff,
with writing enabled, is prepended to the history as read and the full sequence
becomes the new file contents. -/
theorem C4_write_policy (writeFile : Bool) (disk : Disk) (stats : Snapshot) :
    ((∀ f ∈ stats.files, f.diff = 0) → writeToDisk writeFile disk stats = disk)
    ∧ ((∃ f ∈ stats.files, f.diff ≠ 0) →
        writeToDisk true disk stats = some (stats :: readFromDisk true disk)) := by
  constructor
  · intro h
    unfold writeToDisk
    have hany : stats.files.any (fun file => file.diff != 0) = false := by
      rw [List.any_eq_false]
      intro f hf
      simpa using h f hf
    simp [hany]
  · rintro ⟨f, hf, hne⟩
    unfold writeToDisk
    have hany : stats.files.any (fun file => file.diff != 0) = true :=
      List.any_eq_true.mpr ⟨f, hf, by simpa using hne⟩
    simp [hany]

/-- C4 witness: the policy applied twice, to an all-zero-diff snapshot left
unwritten and to a snapshot with a nonzero diff prepended to the history. -/
theorem C4_witness :
    writeToDisk true (some [Snapshot.mk 1 "gzip" 6 []])
        (Snapshot.mk 2 "gzip" 6 [FileDelta.mk "a.js" 5 5 0])
        = some [Snapshot.mk 1 "gzip" 6 []]
    ∧ writeToDisk true (some [Snapshot.mk 1 "gzip" 6 []])
        (Snapshot.mk 2 "gzip" 6 [FileDelta.mk "a.js" 5 7 2])
        = some (Snapshot.mk 2 "gzip" 6 [FileDelta.mk "a.js" 5 7 2]
            :: readFromDisk true (some [Snapshot.mk 1 "gzip" 6 []])) := by
  constructor
  · exact (C4_write_policy true (some [Snapshot.mk 1 "gzip" 6 []])
      (Snapshot.mk 2 "gzip" 6 [FileDelta.mk "a.js" 5 5 0])).1 (by decide)
  · exact (C4_write_policy true (some [Snapshot.mk 1 "gzip" 6 []])
      (Snapshot.mk 2 "gzip" 6 [FileDelta.mk "a.js" 5 7 2])).2
      ⟨FileDelta.mk "a.js" 5 7 2, by decide, by decide⟩

/-- C5: when the bundle holds exactly one chunk, the effective include pattern
is that chunk's generated file name whatever the configured pattern was, and
the selector, matching that pattern as the literal name, selects exactly that
file from any candidate list that contains it once and does not exclude it. -/
theorem C5_single_chunk (configured : String) (bundle : List OutputFile)
    (c : OutputFile) (names : List String) (isExcluded : String → Bool)
    (hc : bundle.filter (fun f => f.type == "chunk") = [c])
    (hcount : names.count c.fileName = 1)
    (hx : isExcluded c.fileName = false) :
    effectivePattern configured bundle = c.fileName
    ∧ filterFiles (litMatch (effectivePattern configured bundle)) isExcluded names
        = [c.fileName] := by
  have hp : effectivePattern configured bundle = c.fileName := by
    unfold effectivePattern
    rw [hc]
  refine ⟨hp, ?_⟩
  rw [hp]
  unfold filterFiles litMatch
  have hcongr : names.filter (fun file => (file == c.fileName) && !(isExcluded file))
      = names.filter (fun file => file == c.fileName) := by
    apply List.filter_congr
    intro f _
    by_cases he : f = c.fileName
    · subst he
      simp [hx]
    · simp [he]
  rw [hcongr, List.filter_beq, hcount]
  rfl

/-- C5 witness: a bundle whose single chunk carries the hashed name
bundle.a1b2c3.js, a configured pattern matching only css, and a candidate list
holding the chunk and a stylesheet: only the chunk is selected. -/
theorem C5_witness :
    effectivePattern "**/*.css"
        [OutputFile.mk "chunk" "bundle.a1b2c3.js", OutputFile.mk "asset" "style.css"]
        = "bundle.a1b2c3.js"
    ∧ filterFiles
        (litMatch (effectivePattern "**/*.css"
          [OutputFile.mk "chunk" "bundle.a1b2c3.js", OutputFile.mk "asset" "style.css"]))
        (fun _ => false) ["bundle.a1b2c3.js", "style.css"]
        = ["bundle.a1b2c3.js"] :=
  C5_single_chunk "**/*.css"
    [OutputFile.mk "chunk" "bundle.a1b2c3.js", OutputFile.mk "asset" "style.css"]
    (OutputFile.mk "chunk" "bundle.a1b2c3.js")
    ["bundle.a1b2c3.js", "style.css"] (fun _ => false)
    (by decide) (by decide) rfl

/-- C6: for a readable non-empty persisted history with writing enabled, load
re-sorts the stored snapshots into descending timestamp order and converts the
files of the head of that sorted sequence, a snapshot whose timestamp is
greatest among all stored snapshots, into the baseline size map. -/
theorem C6_latest_snapshot (h : List Snapshot) (hne : h ≠ [])
    (compression : String) (brotliAvailable : Bool)
    (gz br : List UInt8 → List UInt8) (isMatched isExcluded : String → Bool)
    (globbed : List String) (readFile : String → Option (List UInt8)) :
    ∃ first rest, sortByTimestampDesc h = first :: rest
      ∧ load compression brotliAvailable gz br isMatched isExcluded globbed readFile
          true (some h) = Except.ok (toFileMap first.files)
      ∧ ∀ s ∈ h, s.timestamp ≤ first.timestamp := by
  have hperm : (sortByTimestampDesc h).Perm h := by
    unfold sortByTimestampDesc
    exact List.perm_insertionSort (fun a b => b.timestamp ≤ a.timestamp) h
  have hnil : sortByTimestampDesc h ≠ [] := by
    intro he
    apply hne
    have hlen := hperm.length_eq
    rw [he] at hlen
    exact List.length_eq_zero.mp hlen.symm
  obtain ⟨first, rest, heq⟩ := List.exists_cons_of_ne_nil hnil
  have hsorted : List.Sorted (fun a b : Snapshot => b.timestamp ≤ a.timestamp)
      (first :: rest) := by
    rw [← heq]
    exact @List.sorted_insertionSort Snapshot (fun a b => b.timestamp ≤ a.timestamp)
      (fun a b => Nat.decLe b.timestamp a.timestamp)
      ⟨fun a b => Nat.le_total b.timestamp a.timestamp⟩
      ⟨fun a b c hab hbc => Nat.le_trans hbc hab⟩ h
  refine ⟨first, rest, heq, ?_, ?_⟩
  · unfold load readFromDisk
    simp [heq]
  · intro s hs
    rcases List.mem_cons.mp (heq ▸ hperm.mem_iff.mpr hs) with he | hmem
    · exact he ▸ Nat.le_refl _
    · exact List.rel_of_sorted_cons hsorted s hmem

/-- C6 witness: a two-snapshot history stored oldest first; load re-sorts it and
converts the files of the snapshot with timestamp 9. -/
theorem C6_witness :
    load "gzip" true (fun b => b) (fun b => b) (fun _ => true) (fun _ => false)
        [] (fun _ => none) true
        (some [Snapshot.mk 5 "gzip" 6 [FileDelta.mk "a.js" 0 3 3],
          Snapshot.mk 9 "gzip" 6 [FileDelta.mk "a.js" 0 4 4]])
      = Except.ok (toFileMap (Snapshot.mk 9 "gzip" 6 [FileDelta.mk "a.js" 0 4 4]).files) := by
  obtain ⟨first, rest, heq, hload, -⟩ := C6_latest_snapshot
    [Snapshot.mk 5 "gzip" 6 [FileDelta.mk "a.js" 0 3 3],
      Snapshot.mk 9 "gzip" 6 [FileDelta.mk "a.js" 0 4 4]] (by decide)
    "gzip" true (fun b => b) (fun b => b) (fun _ => true) (fun _ => false)
    [] (fun _ => none)
  have hs : sortByTimestampDesc
      [Snapshot.mk 5 "gzip" 6 [FileDelta.mk "a.js" 0 3 3],
        Snapshot.mk 9 "gzip" 6 [FileDelta.mk "a.js" 0 4 4]]
      = [Snapshot.mk 9 "gzip" 6 [FileDelta.mk "a.js" 0 4 4],
        Snapshot.mk 5 "gzip" 6 [FileDelta.mk "a.js" 0 3 3]] := by decide
  rw [hs] at heq
  have hfirst : first = Snapshot.mk 9 "gzip" 6 [FileDelta.mk "a.js" 0 4 4] :=
    (List.cons_eq_cons.mp heq).1.symm
  rw [hfirst] at hload
  exact hload

/-- C7: with the write-to-disk option off, the baseline load ignores the history
file entirely and scans the output directory instead, the persist step leaves
the history file state unchanged, and the snapshot assembled by save is the same
one that writing-enabled persistence would have assembled. -/
theorem C7_write_disabled (compression : String) (brotliAvailable : Bool)
    (gz br : List UInt8 → List UInt8) (isMatched isExcluded : String → Bool)
    (globbed : List String) (readFile : String → Option (List UInt8)) (disk : Disk)
    (compressionType : String) (compressionLevel timestamp : Nat) (files : List Item) :
    load compression brotliAvailable gz br isMatched isExcluded globbed readFile
        false disk
      = getSizes compression brotliAvailable gz br isMatched isExcluded globbed readFile
    ∧ (save compressionType compressionLevel timestamp files false disk).snd = disk
    ∧ (save compressionType compressionLevel timestamp files false disk).fst
        = (save compressionType compressionLevel timestamp files true disk).fst := by
  refine ⟨rfl, ?_, rfl⟩
  simp [save, writeToDisk]

/-- C8: evaluating the baseline scan at a glob list whose middle candidate is
dropped by the include filter: the source pairs the unfiltered name list with
the filtered size list via toMap, so the dropped name vendor.txt is retained and
bound to the 5-byte size measured from b.js, while b.js itself is bound to the
out-of-range undefined value; the specified alignment between filenames and
their own measured sizes fails. -/
theorem C8_misaligned_scan :
    getSizes "none" true (fun b => b) (fun b => b) (fun f => f != "vendor.txt")
        (fun _ => false) ["a.js", "vendor.txt", "b.js"]
        (fun f => if f == "a.js" then some [0, 0]
          else if f == "b.js" then some [0, 0, 0, 0, 0] else none)
      = Except.ok [("a.js", some 2), ("vendor.txt", some 5), ("b.js", none)] := by
  decide

/-- C9: a candidate file whose read fails is swallowed: the baseline scan still
succeeds (no error reaches the caller) and the comparison sees size 0 for that
file, its entry value being the JS null. Stated for the default gzip mode and a
duplicate-free glob list whose members all pass the filter, as the external glob
guarantees for its own output. -/
theorem C9_read_failure_swallowed (brotliAvailable : Bool)
    (gz br : List UInt8 → List UInt8) (isMatched isExcluded : String → Bool)
    (globbed : List String) (readFile : String → Option (List UInt8)) (f : String)
    (hall : ∀ c ∈ globbed, isMatched c = true ∧ isExcluded c = false)
    (hnd : globbed.Nodup) (hf : f ∈ globbed) (hread : readFile f = none) :
    getSizes "gzip" brotliAvailable gz br isMatched isExcluded globbed readFile
        = Except.ok (toMap globbed
            (globbed.map (fun file => (readFile file).map (fun s => (gz s).length))))
    ∧ lookupOr0
        (toMap globbed
          (globbed.map (fun file => (readFile file).map (fun s => (gz s).length)))) f
        = 0 := by
  have hfilter : filterFiles isMatched isExcluded globbed = globbed := by
    unfold filterFiles
    rw [List.filter_eq_self]
    intro a ha
    obtain ⟨h1, h2⟩ := hall a ha
    simp [h1, h2]
  constructor
  · unfold getSizes
    rw [hfilter, mapM_ok
      (fun file => match readFile file with
        | none => pure none
        | some source => do
            let n ← getCompressedSize "gzip" brotliAvailable gz br source
            pure (some n))
      (fun file => (readFile file).map (fun s => (gz s).length)) globbed ?_]
    · rfl
    · intro a _
      cases hra : readFile a with
      | none =>
          simp only [hra, Option.map_none']
          rfl
      | some s => simp [hra, getCompressedSize]
  · obtain ⟨i, hi, rfl⟩ := List.mem_iff_getElem.mp hf
    unfold lookupOr0
    rw [lookup_toMap globbed _ hnd i hi]
    have hval : (globbed.map (fun file => (readFile file).map (fun s => (gz s).length))).getD
        i none = none := by
      rw [List.getD_eq_getElem?_getD, List.getElem?_map, List.getElem?_eq_getElem hi]
      simp [hread]
    rw [hval]

/-- C9 witness: scanning two candidates where gone.js fails to read; the scan
succeeds and the comparison sees 0 for gone.js. -/
theorem C9_witness :
    getSizes "gzip" true (fun b => b) (fun b => b) (fun _ => true) (fun _ => false)
        ["a.js", "gone.js"] (fun f => if f == "a.js" then some [7] else none)
        = Except.ok (toMap ["a.js", "gone.js"]
            (["a.js", "gone.js"].map (fun file =>
              ((fun f => if f == "a.js" then some [7] else none) file).map
                (fun s => ((fun b : List UInt8 => b) s).length))))
    ∧ lookupOr0
        (toMap ["a.js", "gone.js"]
          (["a.js", "gone.js"].map (fun file =>
            ((fun f => if f == "a.js" then some [7] else none) file).map
              (fun s => ((fun b : List UInt8 => b) s).length)))) "gone.js"
        = 0 :=
  C9_read_failure_swallowed true (fun b => b) (fun b => b) (fun _ => true)
    (fun _ => false) ["a.js", "gone.js"]
    (fun f => if f == "a.js" then some [7] else none) "gone.js"
    (by decide) (by decide) (by decide) (by decide)

/-- C10 counterexample: with brotli configured but unavailable, a run whose
baseline comes from a readable history measures the current asset inside
outputSizes and that measurement fails with the brotli error, yet generateBundle
resolves successfully with the history untouched, because the source fires
outputSizes under a catch that only logs: the claimed abort of the build step
does not happen. -/
theorem C10_counterexample :
    getCompressedSize "brotli" false (fun b => b) (fun b => b) [42]
        = Except.error "Brotli not supported in this Node version."
    ∧ outputSizesRun "brotli" false (fun b => b) (fun b => b) 6 (fun _ => true)
        (fun _ => false) (toFileMap [FileDelta.mk "a.js" 0 7 7]) ["a.js"]
        (fun _ => [42]) true
        (some [Snapshot.mk 100 "brotli" 6 [FileDelta.mk "a.js" 0 7 7]]) 111
        = Except.error "Brotli not supported in this Node version."
    ∧ generateBundle "brotli" false (fun b => b) (fun b => b) 6 (fun _ => true)
        (fun _ => false) [] (fun _ => none) ["a.js"] (fun _ => [42]) true
        (some [Snapshot.mk 100 "brotli" 6 [FileDelta.mk "a.js" 0 7 7]]) 111
        = Except.ok (some [Snapshot.mk 100 "brotli" 6 [FileDelta.mk "a.js" 0 7 7]]) :=
  ⟨by decide, by decide, by decide⟩

/-- C10 amended: measuring with brotli in an environment lacking it makes the
Compression Measurer fail with the unsupported-feature error, and measuring with
mode none yields the exact byte length; the error aborts the build step when it
arises in the awaited baseline load, while an error arising in the
fire-and-forget reporting call is swallowed and the hook resolves successfully
with the history state unchanged. -/
theorem C10_error_paths (gz br : List UInt8 → List UInt8) (brotliAvailable : Bool)
    (src : List UInt8) :
    getCompressedSize "brotli" false gz br src
        = Except.error "Brotli not supported in this Node version."
    ∧ getCompressedSize "none" brotliAvailable gz br src = Except.ok src.length
    ∧ (∀ (compression : String) (brA : Bool) (compressionLevel : Nat)
        (isMatched isExcluded : String → Bool) (globbed : List String)
        (readFile : String → Option (List UInt8)) (assetKeys : List String)
        (code : String → List UInt8) (writeFile : Bool) (disk : Disk)
        (timestamp : Nat) (e : String),
        load compression brA gz br isMatched isExcluded globbed readFile
            writeFile disk = Except.error e →
        generateBundle compression brA gz br compressionLevel isMatched isExcluded
            globbed readFile assetKeys code writeFile disk timestamp
          = Except.error e)
    ∧ (∀ (compression : String) (brA : Bool) (compressionLevel : Nat)
        (isMatched isExcluded : String → Bool) (globbed : List String)
        (readFile : String → Option (List UInt8)) (assetKeys : List String)
        (code : String → List UInt8) (writeFile : Bool) (disk : Disk)
        (timestamp : Nat) (initialSizes : SizeMap) (e : String),
        load compression brA gz br isMatched isExcluded globbed readFile
            writeFile disk = Except.ok initialSizes →
        outputSizesRun compression brA gz br compressionLevel isMatched isExcluded
            initialSizes assetKeys code writeFile disk timestamp
          = Except.error e →
        generateBundle compression brA gz br compressionLevel isMatched isExcluded
            globbed readFile assetKeys code writeFile disk timestamp
          = Except.ok disk) := by
  refine ⟨rfl, rfl, ?_, ?_⟩
  · intro compression brA compressionLevel isMatched isExcluded globbed readFile
      assetKeys code writeFile disk timestamp e hload
    unfold generateBundle
    rw [hload]
    rfl
  · intro compression brA compressionLevel isMatched isExcluded globbed readFile
      assetKeys code writeFile disk timestamp initialSizes e hload hrun
    unfold generateBundle
    rw [hload]
    show (match outputSizesRun compression brA gz br compressionLevel isMatched
        isExcluded initialSizes assetKeys code writeFile disk timestamp with
      | Except.error _ => pure disk
      | Except.ok (_, newDisk) => pure newDisk) = Except.ok disk
    rw [hrun]
    rfl

/-- C10 witness: the amended theorem applied to a baseline-scan run where the
brotli error aborts the hook, and to the exact byte length of a three-byte
input under mode none. -/
theorem C10_witness :
    generateBundle "brotli" false (fun b => b) (fun b => b) 6 (fun _ => true)
        (fun _ => false) ["x.js"] (fun _ => some [1]) ["a.js"] (fun _ => [42])
        true none 5
        = Except.error "Brotli not supported in this Node version."
    ∧ getCompressedSize "none" true (fun b => b) (fun b => b) [1, 2, 3]
        = Except.ok 3 := by
  have h := C10_error_paths (fun b => b) (fun b => b) true [1, 2, 3]
  constructor
  · exact h.2.2.1 "brotli" false 6 (fun _ => true) (fun _ => false) ["x.js"]
      (fun _ => some [1]) ["a.js"] (fun _ => [42]) true none 5
      "Brotli not supported in this Node version." (by decide)
  · exact h.2.1

end ASBC
